import Mathlib

/-!
Verification of the VS-Deno live-preview orchestrator.

Shallow embedding of the preview session orchestrator and reload protocol
from `src/extension.ts` and `src/denoPreviewProvider.ts`:

* process-supervisor stop sequence (`stopLivePreview`, grace-window kill timer),
* temp-resource cleanup (`cleanupTempResources`),
* the generated server's reload broadcast and live-reload client backoff,
* the project-root resolver (`detectProjectRoot`),
* the host-side file watcher's change handler,
* the preview provider's health check (`checkServerHealth`), teardown
  (`clearPreview`) and output buffer (`appendOutput`).

Machine paths are modelled as component lists or plain strings, the
filesystem as boolean oracles, timers and process handles as explicit
state fields; signal sends and deletions are logged so that ordering
properties can be stated.
-/

namespace VSDeno

/-! ### Process supervisor: stop sequence

From `src/extension.ts`, `stopLivePreview` (lines 1045-1090): the handler
sends `denoProcess.kill()` (SIGTERM), schedules a 500 ms timeout whose
callback force-kills only `if (denoProcess)` is still set, and then
immediately assigns `denoProcess = undefined` before returning. -/

structure Proc where
  pid : Nat
deriving DecidableEq, Repr

inductive Sig where
  | term
  | force
deriving DecidableEq, Repr

structure HostState where
  denoProcess : Option Proc
  /-- Pending force-kill timer delay in milliseconds, `none` when no timer armed. -/
  killTimerDelay : Option Nat
deriving DecidableEq, Repr

/-- The synchronous body of `stopLivePreview`: if a process handle exists,
send SIGTERM, arm the 500 ms force-kill timer, and clear the handle.
Returns the new state and the list of signals sent now. -/
def stopLivePreview (s : HostState) : HostState × List (Nat × Sig) :=
  match s.denoProcess with
  | none => (s, [])
  | some p => (⟨none, some 500⟩, [(p.pid, Sig.term)])

/-- The 500 ms timeout callback in `stopLivePreview`: it re-reads the
mutable `denoProcess` variable at fire time and force-kills only when it
is still set. -/
def fireKillTimer (s : HostState) : HostState × List (Nat × Sig) :=
  match s.denoProcess with
  | none => ({ s with killTimerDelay := none }, [])
  | some p => ({ s with killTimerDelay := none }, [(p.pid, Sig.force)])

/-! ### Host-side file watcher

From `src/extension.ts`, `setupFileWatcher` (lines 1012-1043): the
`onDidChange` handler checks the file extension and the presence of
`denoProcess` (and its `stdin`) and then calls `refreshPreview(false)`
directly, with no timer. -/

/-- Extension filter from the watcher handler. -/
def isWatchedExt (ext : String) : Bool :=
  ext == ".html" || ext == ".css" || ext == ".js" || ext == ".ts"

/-- Number of refresh triggers the `onDidChange` handler emits for a single
change event, given the changed file's extension and whether `denoProcess`
(with a live `stdin`) is present. The emission is immediate: no debounce
timer appears in this handler. -/
def watcherOnChange (ext : String) (procPresent : Bool) : Nat :=
  if isWatchedExt ext && procPresent then 1 else 0

/-- Total refresh triggers emitted for a burst of change events. -/
def watcherBurst (events : List String) (procPresent : Bool) : Nat :=
  (events.map fun e => watcherOnChange e procPresent).sum

/-! ### Live-reload client backoff

From the generated client script in `generateStaticServerCode`
(`src/extension.ts`, lines 504-559): `reconnect()` increments
`reconnectAttempts` and then waits
`Math.min(1000 * Math.pow(1.5, reconnectAttempts), 10000)` milliseconds;
`socket.onopen` resets `reconnectAttempts = 0`. -/

/-- Delay used for a reconnect attempt, as a function of the
`reconnectAttempts` counter value at computation time. -/
def reconnectDelay (reconnectAttempts : Nat) : ℚ :=
  min (1000 * (3 / 2 : ℚ) ^ reconnectAttempts) 10000

/-- One execution of `reconnect()`: increment the counter, then compute the
delay from the incremented counter. -/
def reconnect (attempts : Nat) : Nat × ℚ :=
  (attempts + 1, reconnectDelay (attempts + 1))

/-- The `socket.onopen` handler's effect on the counter. -/
def onOpenReset (_attempts : Nat) : Nat := 0

/-! ### Preview provider: health monitor, teardown, output buffer

From `src/denoPreviewProvider.ts`: fields `_previewUrl`, `_outputLines`,
`_lastDiagnosticsCheck`, `_connectionStatus` of `DenoPreviewProvider`, and
the methods `updateConnectionStatus`, `checkServerHealth` (lines 228-281),
`clearPreview` (lines 163-174), `setPreviewUrl`, `appendOutput`
(lines 120-158). -/

inductive ConnStatus where
  | connected
  | disconnected
  | error
  | unknown
deriving DecidableEq, Repr

structure ProviderState where
  previewUrl : String
  outputLines : List (List Char)
  lastDiagnosticsCheck : Nat
  connectionStatus : ConnStatus
deriving DecidableEq, Repr

/-- Relevant fields of the JSON body served by `GET /_diagnostics`,
as read by `checkServerHealth`, together with the HTTP `response.ok` flag.
The connection counters live in the spawned server and are decremented on
socket close or error, so they are modelled as integers. -/
structure FetchResult where
  ok : Bool
  activeWsConnections : Int
  wsConnections : Int
deriving DecidableEq, Repr

/-- `updateConnectionStatus`: stores the new status (the code skips the
store when the status is unchanged, which yields the same state). -/
def updateConnectionStatus (s : ProviderState) (st : ConnStatus) : ProviderState :=
  if s.connectionStatus = st then s else { s with connectionStatus := st }

/-- The part of `checkServerHealth` that runs before the `await fetch`:
return early when no preview URL is set or when the last check was less
than 10000 ms ago, otherwise record the check time and start the fetch. -/
def healthGuard (s : ProviderState) (now : Nat) : Option ProviderState :=
  if s.previewUrl = "" then none
  else if now - s.lastDiagnosticsCheck < 10000 then none
  else some { s with lastDiagnosticsCheck := now }

/-- The part of `checkServerHealth` that runs after the `await fetch`
resolves: `none` models a network error (the `catch` branch); a result
with `ok = false` models a non-OK HTTP response. The code applies the
derived status to whatever provider state is current at resolution time;
it contains no session or generation identity check. -/
def applyFetch (s : ProviderState) (res : Option FetchResult) : ProviderState :=
  match res with
  | none => updateConnectionStatus s ConnStatus.error
  | some r =>
      if r.ok then
        if 0 < r.activeWsConnections then
          updateConnectionStatus s ConnStatus.connected
        else if 0 < r.wsConnections ∧ r.activeWsConnections = 0 then
          updateConnectionStatus s ConnStatus.disconnected
        else s
      else updateConnectionStatus s ConnStatus.error

/-- A whole `checkServerHealth` call whose fetch resolves while the
provider state is otherwise untouched. The boolean records whether a poll
(an actual fetch) was performed. -/
def checkServerHealth (s : ProviderState) (now : Nat) (res : Option FetchResult) :
    ProviderState × Bool :=
  match healthGuard s now with
  | none => (s, false)
  | some s1 => (applyFetch s1 res, true)

/-- Times at which a sequence of `checkServerHealth` invocations actually
polls the diagnostics endpoint. -/
def pollTrace (s : ProviderState) : List (Nat × Option FetchResult) → List Nat
  | [] => []
  | (t, r) :: rest =>
      let step := checkServerHealth s t r
      if step.2 then t :: pollTrace step.1 rest else pollTrace step.1 rest

/-- `clearPreview`: reset the preview URL, the output buffer and the
connection status (and stop the health-check interval). -/
def clearPreview (s : ProviderState) : ProviderState :=
  updateConnectionStatus
    { s with previewUrl := "", outputLines := [] } ConnStatus.unknown

/-- `setPreviewUrl`: store the new session's URL (and restart the
health-check interval). -/
def setPreviewUrl (s : ProviderState) (url : String) : ProviderState :=
  { s with previewUrl := url }

/-! ### `appendOutput` and its line buffer -/

/-- JS `output.split('\n')` on a string modelled as a character list. -/
def splitOnNl : List Char → List (List Char)
  | [] => [[]]
  | c :: rest =>
      match splitOnNl rest with
      | [] => [[c]]
      | l :: ls => if c = '\n' then [] :: l :: ls else (c :: l) :: ls

/-- JS `line.trim() === ''` for the common ASCII whitespace characters:
true when the line contains nothing but whitespace. -/
def isBlank (l : List Char) : Bool :=
  l.all fun c => c == ' ' || c == '\t' || c == '\n' || c == '\r'

/-- The `lines` local of `appendOutput`: split on newlines and drop lines
that are empty after trimming. -/
def outputLines (output : List Char) : List (List Char) :=
  (splitOnNl output).filter fun l => !(isBlank l)

/-- `appendOutput` restricted to its effect on `_outputLines`: push the
filtered lines, then keep only the last 200 entries (`slice(-200)`) when
the buffer exceeds 200 lines. -/
def appendOutput (buffer : List (List Char)) (output : List Char) : List (List Char) :=
  let buf := buffer ++ outputLines output
  if 200 < buf.length then buf.drop (buf.length - 200) else buf

/-- A state with a health fetch of session 1 already past its pre-await
guard when the fetch is started at time 20000. -/
def c9Start : ProviderState :=
  ⟨"http://localhost:8000/", [], 0, ConnStatus.connected⟩

/-- `c9Start` after `healthGuard` recorded the check time: the fetch is
now in flight. -/
def c9InFlight : ProviderState :=
  ⟨"http://localhost:8000/", [], 20000, ConnStatus.connected⟩

/-- Provider state after session 1 is torn down (`clearPreview`) and a new
session registers its URL, all before the stale fetch resolves. -/
def c9NewSession : ProviderState :=
  setPreviewUrl (clearPreview c9InFlight) "http://localhost:8001/"

/-! ### Reload broker: broadcast and error handling

From the generated server in `generateStaticServerCode`
(`src/extension.ts`, lines 386-404 and 452-476): on a `modify` or `create`
event of the server's own file watcher, every socket in `clients` with
`readyState === 1` receives the literal payload `"reload"`; the
`socket.onerror` handler removes the socket from `clients`. -/

/-- A tracked WebSocket: its identity and its JS `readyState`
(0 connecting, 1 open, 2 closing, 3 closed). -/
structure WsSocket where
  id : Nat
  readyState : Nat
deriving DecidableEq, Repr

/-- Deno `FsEvent.kind` values. -/
inductive FsEventKind where
  | access
  | create
  | modify
  | remove
  | other
deriving DecidableEq, Repr

/-- The broadcast loop body: when the client set is non-empty, send
`"reload"` to every socket whose ready-state is 1 (open). Returns the
list of performed sends as `(socket id, payload)` pairs. -/
def notifyClients (clients : List WsSocket) : List (Nat × String) :=
  if 0 < clients.length then
    clients.filterMap fun c =>
      if c.readyState = 1 then some (c.id, "reload") else none
  else []

/-- Handling of one file-system event inside the generated server: only
`modify` and `create` events trigger the broadcast. -/
def handleWatchEvent (kind : FsEventKind) (clients : List WsSocket) :
    List (Nat × String) :=
  if kind = FsEventKind.modify ∨ kind = FsEventKind.create then
    notifyClients clients
  else []

/-- The `socket.onerror` handler's effect on the client set:
`clients.delete(socket)`. -/
def onSocketError (clients : List WsSocket) (s : WsSocket) : List WsSocket :=
  clients.erase s

/-! ### Path/project resolver

From `src/extension.ts`, `detectProjectRoot` (lines 262-292): starting at
`path.dirname` of the validated file path, walk parents while the current
directory is not the filesystem root and fewer than `maxSearchDepth = 10`
steps were taken, returning the first directory containing `package.json`,
`deno.json` or `index.html`; otherwise (and on any internal error) return
the file's own directory. Absolute directories are modelled as component
lists (the filesystem root is `[]`, `path.dirname` is `List.dropLast`) and
the filesystem as a boolean oracle over paths. -/

/-- The marker test of one loop iteration:
`fs.existsSync(path.join(dir, m))` for the three marker names. -/
def hasMarker (fsEx : List String → Bool) (dir : List String) : Bool :=
  fsEx (dir ++ ["package.json"]) || fsEx (dir ++ ["deno.json"]) ||
    fsEx (dir ++ ["index.html"])

/-- The bounded upward walk of `detectProjectRoot`; `fuel` is
`maxSearchDepth - searchDepth`, `fallback` the file's own directory. -/
def rootSearch (fsEx : List String → Bool) (fallback : List String) :
    Nat → List String → List String
  | 0, _ => fallback
  | fuel + 1, dir =>
      if dir = [] then fallback
      else if hasMarker fsEx dir then dir
      else rootSearch fsEx fallback fuel dir.dropLast

/-- `detectProjectRoot` on the directory of the (validated) input file,
with `maxSearchDepth = 10`. -/
def detectProjectRoot (fsEx : List String → Bool) (fileDir : List String) :
    List String :=
  rootSearch fsEx fileDir 10 fileDir

/-- Example layout for the depth boundary: the file lives 12 components
deep. -/
def exFileDir : List String :=
  ["home", "user", "d1", "d2", "d3", "d4", "d5", "d6", "d7", "d8", "d9", "d10"]

/-- Filesystem oracle with a single `package.json` marker in
`["home", "user"]`, the ancestor of `exFileDir` exactly 10 levels up. -/
def exMarkerFs : List String → Bool :=
  fun l => l == ["home", "user", "package.json"]

/-! ### Temp resource manager

From `src/extension.ts`, `cleanupTempResources` (lines 665-694): the
`tempResources` map (keyed by resource path) is traversed twice, first
deleting tracked files with `fs.unlinkSync`, then tracked directories with
`fs.rmdirSync`; each delete is wrapped in try/catch, so the function never
throws. In both loops the body — including the `tempResources.delete(key)`
removing the entry — runs only under `fs.existsSync(resource.path)`. The
map is modelled as a list of entries with pairwise distinct paths, the
filesystem as an existence oracle plus per-path success oracles for the
two delete calls. Deletion attempts are logged so the file/directory
ordering can be stated. -/

inductive ResKind where
  | file
  | directory
deriving DecidableEq, Repr

structure TempResource where
  type : ResKind
  path : String
deriving DecidableEq, Repr

structure FsOracle where
  /-- `fs.existsSync` -/
  alive : String → Bool
  /-- whether `fs.unlinkSync` on this path succeeds (otherwise it throws
  and the catch logs the failure) -/
  unlinkOk : String → Bool
  /-- whether `fs.rmdirSync` on this path succeeds -/
  rmdirOk : String → Bool

/-- Effect of a successful deletion on the existence oracle. -/
def eraseAlive (fs : FsOracle) (p : String) : FsOracle :=
  { fs with alive := fun q => if q = p then false else fs.alive q }

/-- First loop of `cleanupTempResources`: for each `file` entry whose path
exists, attempt `unlinkSync` (failure is caught) and drop the entry from
the map; all other entries — including file entries whose path no longer
exists — are kept. Returns the remaining map, the filesystem, and the log
of attempted deletions. -/
def cleanupFilesPass :
    List TempResource → FsOracle →
      List TempResource × FsOracle × List (ResKind × String)
  | [], fs => ([], fs, [])
  | r :: rest, fs =>
      if r.type = ResKind.file then
        if fs.alive r.path then
          let fs1 := if fs.unlinkOk r.path then eraseAlive fs r.path else fs
          let out := cleanupFilesPass rest fs1
          (out.1, out.2.1, (ResKind.file, r.path) :: out.2.2)
        else
          let out := cleanupFilesPass rest fs
          (r :: out.1, out.2.1, out.2.2)
      else
        let out := cleanupFilesPass rest fs
        (r :: out.1, out.2.1, out.2.2)

/-- Second loop of `cleanupTempResources`: same shape for `directory`
entries with `rmdirSync({ recursive: true })`. -/
def cleanupDirsPass :
    List TempResource → FsOracle →
      List TempResource × FsOracle × List (ResKind × String)
  | [], fs => ([], fs, [])
  | r :: rest, fs =>
      if r.type = ResKind.directory then
        if fs.alive r.path then
          let fs1 := if fs.rmdirOk r.path then eraseAlive fs r.path else fs
          let out := cleanupDirsPass rest fs1
          (out.1, out.2.1, (ResKind.directory, r.path) :: out.2.2)
        else
          let out := cleanupDirsPass rest fs
          (r :: out.1, out.2.1, out.2.2)
      else
        let out := cleanupDirsPass rest fs
        (r :: out.1, out.2.1, out.2.2)

/-- `cleanupTempResources`: files pass, then directories pass. The
function is total — every branch of the source wraps its delete in
try/catch, so no exception escapes. -/
def cleanupTempResources (m : List TempResource) (fs : FsOracle) :
    List TempResource × FsOracle × List (ResKind × String) :=
  let p1 := cleanupFilesPass m fs
  let p2 := cleanupDirsPass p1.1 p1.2.1
  (p2.1, p2.2.1, p1.2.2 ++ p2.2.2)

/-! ### HTML reload-script injection

From the generated server's HTML branch in `generateStaticServerCode`
(`src/extension.ts`, lines 582-617): if the served body does not contain
`"/_lr_script.js"` (JS `String.includes`), the first occurrence of
`"</head>"` is replaced (JS `String.replace` with a string pattern
replaces only the first occurrence) by the script tag followed by
`"</head>"`; otherwise the body is returned unchanged. Bodies are
modelled as character lists. -/

/-- The script reference substring the injection branch searches for
before injecting. -/
def lrScriptRef : List Char := "/_lr_script.js".data

/-- The search pattern of the `replace` call. -/
def headCloseTag : List Char := "</head>".data

/-- The replacement text of the `replace` call: the script tag followed by
the closing head tag. -/
def lrReplacement : List Char :=
  "<script src=\"/_lr_script.js\"></script></head>".data

/-- JS `hay.includes(pat)` on character lists. -/
def includesAux (pat : List Char) : List Char → Bool
  | [] => pat.isEmpty
  | c :: rest => pat.isPrefixOf (c :: rest) || includesAux pat rest

/-- JS `hay.replace(pat, repl)` with a string pattern: replace the first
occurrence only; if the pattern does not occur, return the input. -/
def replaceFirst (pat repl : List Char) : List Char → List Char
  | [] => []
  | c :: rest =>
      if pat.isPrefixOf (c :: rest) then repl ++ (c :: rest).drop pat.length
      else c :: replaceFirst pat repl rest

/-- The injection step applied to an HTML body. -/
def injectLiveReloadScript (body : List Char) : List Char :=
  if includesAux lrScriptRef body then body
  else replaceFirst headCloseTag lrReplacement body

/-- Number of occurrences of `pat` (counted by start position). -/
def countOccs (pat : List Char) : List Char → Nat
  | [] => 0
  | c :: rest =>
      (if pat.isPrefixOf (c :: rest) then 1 else 0) + countOccs pat rest

/-- A small HTML page without the reload script. -/
def samplePage : List Char :=
  "<html><head><title>t</title></head><body>hi</body></html>".data

end VSDeno

namespace VSDeno

/-- C1: the claim states that `stopLivePreview` first sends SIGTERM and
then, if the process handle is still present after the 500 ms grace
window, force-kills the process. The code does send SIGTERM and arm the
500 ms timer, but it clears `denoProcess` synchronously before returning,
so when the timer fires the guard `if (denoProcess)` is false and no
forceful termination is ever sent — independently of whether the child
survived the SIGTERM. -/
theorem stopLivePreview_force_kill_never_fires
    (s : HostState) (p : Proc) (h : s.denoProcess = some p) :
    (stopLivePreview s).2 = [(p.pid, Sig.term)] ∧
      (stopLivePreview s).1.denoProcess = none ∧
      (stopLivePreview s).1.killTimerDelay = some 500 ∧
      (fireKillTimer (stopLivePreview s).1).2 = [] := by
  simp [stopLivePreview, h, fireKillTimer]

/-- Witness for C1 at a concrete host state with a running child. -/
theorem stopLivePreview_force_kill_never_fires_witness :
    (stopLivePreview ⟨some ⟨42⟩, none⟩).2 = [(42, Sig.term)] ∧
      (stopLivePreview (⟨some ⟨42⟩, none⟩ : HostState)).1.denoProcess = none ∧
      (stopLivePreview (⟨some ⟨42⟩, none⟩ : HostState)).1.killTimerDelay = some 500 ∧
      (fireKillTimer (stopLivePreview ⟨some ⟨42⟩, none⟩).1).2 = [] :=
  stopLivePreview_force_kill_never_fires ⟨some ⟨42⟩, none⟩ ⟨42⟩ rfl

/-- C4: the claim states that a burst of K previewable change events within
the debounce window produces exactly one refresh trigger, fired only after
the timer elapses. The watcher handler in `setupFileWatcher` has no timer:
it emits one immediate refresh per qualifying event, so a burst of K events
yields K triggers (2 for a 2-event burst, not 1). The only debounced path
is the `onDidChangeTextDocument` handler over editor buffer edits. -/
theorem watcherBurst_fires_once_per_event
    (events : List String) (h : ∀ e ∈ events, isWatchedExt e = true) :
    watcherBurst events true = events.length := by
  induction events with
  | nil => rfl
  | cons e rest ih =>
      have he : isWatchedExt e = true := h e (List.mem_cons_self e rest)
      have hrest : ∀ x ∈ rest, isWatchedExt x = true :=
        fun x hx => h x (List.mem_cons_of_mem e hx)
      have ihr := ih hrest
      simp [watcherBurst, watcherOnChange, he] at ihr ⊢
      omega

/-- Witness for C4: a 2-event burst on `.html` files with a running child
process produces 2 immediate triggers, not 1. -/
theorem watcherBurst_fires_once_per_event_witness :
    watcherBurst [".html", ".html"] true = 2 ∧ (2 : Nat) ≠ 1 := by
  constructor
  · exact watcherBurst_fires_once_per_event [".html", ".html"] (by decide)
  · decide

/-- C7 counterexample: the claim states that after one successful
connection the attempt counter reset makes the delay return to the base
delay of 1000 ms. In the code `reconnect()` increments the counter before
computing the delay, so the first reconnect after `onopen` resets the
counter uses attempt number 1 and waits 1500 ms, never 1000 ms. -/
theorem reconnectDelay_after_reset_ne_base :
    (reconnect (onOpenReset 7)).2 = 1500 ∧ ((1500 : ℚ) ≠ 1000) := by
  constructor
  · show min (1000 * (3 / 2 : ℚ) ^ (0 + 1)) 10000 = 1500
    norm_num
  · norm_num

/-- C7 (amended): the computed reconnect delay never exceeds the 10000 ms
ceiling, and after a successful connection the counter resets to 0, so the
next reconnect waits `1000 * 1.5 = 1500` ms — the same delay as a
first-ever reconnect, which is the minimum delay the client ever uses,
but not the 1000 ms base constant. -/
theorem reconnectDelay_capped_and_reset (n attempts : Nat) :
    reconnectDelay n ≤ 10000 ∧
      (reconnect (onOpenReset attempts)).2 = (reconnect 0).2 ∧
      (reconnect 0).2 = 1500 := by
  refine ⟨min_le_right _ _, rfl, ?_⟩
  show min (1000 * (3 / 2 : ℚ) ^ (0 + 1)) 10000 = 1500
  norm_num

/-! ### Health monitor lemmas (C8, C9) -/

lemma updateConnectionStatus_status (s : ProviderState) (st : ConnStatus) :
    (updateConnectionStatus s st).connectionStatus = st := by
  by_cases h : s.connectionStatus = st <;> simp [updateConnectionStatus, h]

lemma updateConnectionStatus_lastCheck (s : ProviderState) (st : ConnStatus) :
    (updateConnectionStatus s st).lastDiagnosticsCheck = s.lastDiagnosticsCheck := by
  by_cases h : s.connectionStatus = st <;> simp [updateConnectionStatus, h]

lemma applyFetch_lastCheck (s : ProviderState) (res : Option FetchResult) :
    (applyFetch s res).lastDiagnosticsCheck = s.lastDiagnosticsCheck := by
  cases res with
  | none => simp [applyFetch, updateConnectionStatus_lastCheck]
  | some r =>
      simp only [applyFetch]
      split_ifs <;> simp [updateConnectionStatus_lastCheck]

lemma pollTrace_chain (invs : List (Nat × Option FetchResult)) :
    ∀ s : ProviderState,
      List.Chain (fun a b => a + 10000 ≤ b) s.lastDiagnosticsCheck (pollTrace s invs) := by
  induction invs with
  | nil => intro s; exact List.Chain.nil
  | cons tr rest ih =>
      intro s
      obtain ⟨t, r⟩ := tr
      by_cases hurl : s.previewUrl = ""
      · have hc : checkServerHealth s t r = (s, false) := by
          simp [checkServerHealth, healthGuard, hurl]
        simp only [pollTrace, hc]
        simpa using ih s
      · by_cases hlt : t - s.lastDiagnosticsCheck < 10000
        · have hc : checkServerHealth s t r = (s, false) := by
            simp [checkServerHealth, healthGuard, hurl, hlt]
          simp only [pollTrace, hc]
          simpa using ih s
        · have hc : checkServerHealth s t r =
              (applyFetch { s with lastDiagnosticsCheck := t } r, true) := by
            simp [checkServerHealth, healthGuard, hurl, hlt]
          simp only [pollTrace, hc]
          have hstep : (applyFetch { s with lastDiagnosticsCheck := t } r).lastDiagnosticsCheck
              = t := applyFetch_lastCheck _ _
          have hchain := ih (applyFetch { s with lastDiagnosticsCheck := t } r)
          rw [hstep] at hchain
          have hle : s.lastDiagnosticsCheck + 10000 ≤ t := by omega
          show List.Chain (fun a b => a + 10000 ≤ b) s.lastDiagnosticsCheck
            (t :: pollTrace (applyFetch { s with lastDiagnosticsCheck := t } r) rest)
          exact List.Chain.cons hle hchain

/-- C8: on a fetched diagnostics result the health monitor derives the
status exactly as claimed (`activeWsConnections > 0` gives `connected`;
zero with `wsConnections > 0` gives `disconnected`; a non-OK response or a
network error gives `error`), any invocation less than 10000 ms after the
previous poll performs no poll and leaves the state unchanged, and in any
sequence of invocations consecutive polls lie at least 10000 ms apart. -/
theorem checkServerHealth_derivation_and_rate_limit
    (s : ProviderState) (now : Nat) (res : Option FetchResult) :
    (∀ r : FetchResult, r.ok = true → 0 < r.activeWsConnections →
        (applyFetch s (some r)).connectionStatus = ConnStatus.connected)
    ∧ (∀ r : FetchResult, r.ok = true → 0 < r.wsConnections →
        r.activeWsConnections = 0 →
        (applyFetch s (some r)).connectionStatus = ConnStatus.disconnected)
    ∧ (∀ r : FetchResult, r.ok = false →
        (applyFetch s (some r)).connectionStatus = ConnStatus.error)
    ∧ (applyFetch s none).connectionStatus = ConnStatus.error
    ∧ (now - s.lastDiagnosticsCheck < 10000 → checkServerHealth s now res = (s, false))
    ∧ ∀ invs : List (Nat × Option FetchResult),
        List.Chain (fun a b => a + 10000 ≤ b) s.lastDiagnosticsCheck (pollTrace s invs) := by
  refine ⟨?_, ?_, ?_, ?_, ?_, fun invs => pollTrace_chain invs s⟩
  · intro r hok hact
    simp [applyFetch, hok, hact, updateConnectionStatus_status]
  · intro r hok hws hact
    have hnot : ¬ 0 < r.activeWsConnections := by omega
    simp [applyFetch, hok, hws, hact, hnot, updateConnectionStatus_status]
  · intro r hok
    simp [applyFetch, hok, updateConnectionStatus_status]
  · simp [applyFetch, updateConnectionStatus_status]
  · intro hlt
    by_cases hurl : s.previewUrl = "" <;>
      simp [checkServerHealth, healthGuard, hurl, hlt]

/-- Witness for C8 at a concrete state and diagnostics result. -/
theorem checkServerHealth_derivation_and_rate_limit_witness :
    (applyFetch ⟨"http://localhost:8000/", [], 0, ConnStatus.unknown⟩
        (some ⟨true, 2, 3⟩)).connectionStatus = ConnStatus.connected ∧
      checkServerHealth ⟨"http://localhost:8000/", [], 20000, ConnStatus.unknown⟩ 25000
          (some ⟨true, 2, 3⟩)
        = (⟨"http://localhost:8000/", [], 20000, ConnStatus.unknown⟩, false) := by
  constructor
  · exact (checkServerHealth_derivation_and_rate_limit
      ⟨"http://localhost:8000/", [], 0, ConnStatus.unknown⟩ 0 none).1
      ⟨true, 2, 3⟩ rfl (by decide)
  · exact (checkServerHealth_derivation_and_rate_limit
      ⟨"http://localhost:8000/", [], 20000, ConnStatus.unknown⟩ 25000
      (some ⟨true, 2, 3⟩)).2.2.2.2.1 (by decide)

/-- C9: the claim states that a health-check fetch still in flight when its
session is torn down is ignored because a session or generation identity is
checked before acting on the result. The code has no such check: in this
concrete trace the guard of `checkServerHealth` passes for session 1, the
session is torn down (`clearPreview`) and a new session registers its URL
with status `unknown`, and when the stale fetch then resolves, `applyFetch`
overwrites the new session's connection status with `error`. -/
theorem staleHealthResult_overwrites_new_session :
    healthGuard c9Start 20000 = some c9InFlight
    ∧ c9NewSession.connectionStatus = ConnStatus.unknown
    ∧ (applyFetch c9NewSession (some ⟨false, 0, 0⟩)).connectionStatus
        = ConnStatus.error := by
  refine ⟨by decide, by decide, ?_⟩
  simp [applyFetch, updateConnectionStatus_status]

/-- C10: after any `appendOutput` call the stored buffer holds at most 200
lines; the result is a suffix of the old buffer extended with the newly
split non-blank lines (so when the bound is hit, exactly the most recent
200 lines are kept); and every stored line either was already in the
buffer or is non-blank, i.e. blank lines are dropped before being
stored. -/
theorem appendOutput_bounded (buffer : List (List Char)) (output : List Char) :
    (appendOutput buffer output).length ≤ 200
    ∧ (appendOutput buffer output) <:+ (buffer ++ outputLines output)
    ∧ (200 < (buffer ++ outputLines output).length →
        (appendOutput buffer output).length = 200)
    ∧ ∀ l ∈ appendOutput buffer output, l ∈ buffer ∨ isBlank l = false := by
  have hmem : ∀ l, l ∈ buffer ++ outputLines output → l ∈ buffer ∨ isBlank l = false := by
    intro l hl
    rcases List.mem_append.mp hl with hb | hf
    · exact Or.inl hb
    · right
      have := (List.mem_filter.mp hf).2
      simpa using this
  by_cases h : 200 < (buffer ++ outputLines output).length
  · have happ : appendOutput buffer output =
        (buffer ++ outputLines output).drop ((buffer ++ outputLines output).length - 200) := by
      simp only [appendOutput]
      rw [if_pos h]
    refine ⟨?_, ?_, fun _ => ?_, ?_⟩
    · rw [happ, List.length_drop]; omega
    · rw [happ]
      exact ⟨(buffer ++ outputLines output).take ((buffer ++ outputLines output).length - 200),
        List.take_append_drop _ _⟩
    · rw [happ, List.length_drop]; omega
    · intro l hl
      rw [happ] at hl
      exact hmem l (List.mem_of_mem_drop hl)
  · have happ : appendOutput buffer output = buffer ++ outputLines output := by
      simp only [appendOutput]
      rw [if_neg h]
    refine ⟨?_, ?_, fun hc => absurd hc h, ?_⟩
    · rw [happ]; omega
    · rw [happ]
    · intro l hl
      rw [happ] at hl
      exact hmem l hl

/-- Witness for C10: a 205-line buffer plus an output chunk with one blank
line is trimmed to exactly the most recent 200 lines. -/
theorem appendOutput_bounded_witness :
    (appendOutput (List.replicate 205 ['a']) ['x', '\n', ' ', '\n', 'y']).length = 200 := by
  have h2 : (outputLines ['x', '\n', ' ', '\n', 'y']).length = 2 := by decide
  refine (appendOutput_bounded (List.replicate 205 ['a'])
    ['x', '\n', ' ', '\n', 'y']).2.2.1 ?_
  rw [List.length_append, List.length_replicate, h2]
  omega

/-! ### Reload broadcast lemmas (C3) -/

lemma filterMap_sends (clients : List WsSocket) :
    (clients.filterMap fun c =>
        if c.readyState = 1 then some (c.id, ("reload" : String)) else none)
      = (clients.filter fun c => decide (c.readyState = 1)).map
          fun c => (c.id, "reload") := by
  induction clients with
  | nil => rfl
  | cons c rest ih =>
      by_cases h : c.readyState = 1 <;>
        simp [List.filterMap_cons, List.filter_cons, h, ih]

lemma notifyClients_eq (clients : List WsSocket) :
    notifyClients clients
      = (clients.filter fun c => decide (c.readyState = 1)).map
          fun c => (c.id, "reload") := by
  cases clients with
  | nil => rfl
  | cons c rest => simp [notifyClients, filterMap_sends]

lemma not_mem_erase_self (clients : List WsSocket) (s : WsSocket)
    (hnd : clients.Nodup) : s ∉ clients.erase s := by
  induction clients with
  | nil => simp
  | cons c rest ih =>
      rcases List.nodup_cons.mp hnd with ⟨hc, hrest⟩
      by_cases h : c = s
      · subst h
        rw [List.erase_cons_head]
        exact hc
      · rw [List.erase_cons_tail (by simpa using h)]
        intro hmem
        rcases List.mem_cons.mp hmem with h1 | h1
        · exact h h1.symm
        · exact ih hrest h1

/-- C3: on a `modify` or `create` event the generated server's broadcast
sends the literal payload `"reload"` to exactly the sockets whose
ready-state is 1 (open) — in particular to no socket that was already
closed — and a socket whose `onerror` handler runs is dropped from the
client set. -/
theorem broadcast_reaches_exactly_open_sockets
    (kind : FsEventKind) (clients : List WsSocket) (s : WsSocket)
    (hk : kind = FsEventKind.modify ∨ kind = FsEventKind.create)
    (hnd : clients.Nodup) :
    handleWatchEvent kind clients
      = (clients.filter fun c => decide (c.readyState = 1)).map
          (fun c => (c.id, "reload"))
    ∧ s ∉ onSocketError clients s := by
  constructor
  · rcases hk with h | h <;> subst h <;>
      simp [handleWatchEvent, notifyClients_eq]
  · exact not_mem_erase_self clients s hnd

/-- Witness for C3: with 3 open sockets and 1 closed socket exactly the 3
open ones receive `"reload"`, and the closed socket is dropped from the
set on error. -/
theorem broadcast_reaches_exactly_open_sockets_witness :
    handleWatchEvent FsEventKind.modify
        [⟨0, 1⟩, ⟨1, 1⟩, ⟨2, 1⟩, ⟨3, 3⟩]
      = [(0, "reload"), (1, "reload"), (2, "reload")]
    ∧ (⟨3, 3⟩ : WsSocket) ∉
        onSocketError [⟨0, 1⟩, ⟨1, 1⟩, ⟨2, 1⟩, ⟨3, 3⟩] ⟨3, 3⟩ := by
  have h := broadcast_reaches_exactly_open_sockets FsEventKind.modify
    [⟨0, 1⟩, ⟨1, 1⟩, ⟨2, 1⟩, ⟨3, 3⟩] ⟨3, 3⟩ (Or.inl rfl) (by decide)
  exact ⟨h.1.trans (by decide), h.2⟩

/-! ### Project-root resolver lemmas (C5) -/

lemma dropLast_iterate_nil (k : Nat) :
    List.dropLast^[k] ([] : List String) = [] := by
  induction k with
  | zero => rfl
  | succ k ih => rw [Function.iterate_succ_apply, List.dropLast_nil, ih]

lemma rootSearch_finds (fsEx : List String → Bool) (fb : List String) :
    ∀ (fuel k : Nat) (dir : List String), k < fuel →
      List.dropLast^[k] dir ≠ [] →
      hasMarker fsEx (List.dropLast^[k] dir) = true →
      (∀ j, j < k → hasMarker fsEx (List.dropLast^[j] dir) = false) →
      rootSearch fsEx fb fuel dir = List.dropLast^[k] dir := by
  intro fuel
  induction fuel with
  | zero => intro k dir hk; omega
  | succ fuel ih =>
      intro k dir hk hne hmark hmin
      cases k with
      | zero =>
          simp only [Function.iterate_zero, id] at hne hmark
          simp [rootSearch, hne, hmark]
      | succ j =>
          have hdir : dir ≠ [] := by
            intro hd
            exact hne (by rw [hd, dropLast_iterate_nil])
          have h0 : hasMarker fsEx dir = false := by
            have := hmin 0 (Nat.succ_pos j)
            simpa using this
          rw [Function.iterate_succ_apply] at hne hmark
          have hmin' : ∀ i, i < j →
              hasMarker fsEx (List.dropLast^[i] dir.dropLast) = false := by
            intro i hi
            have := hmin (i + 1) (Nat.succ_lt_succ hi)
            rwa [Function.iterate_succ_apply] at this
          have hrec := ih j dir.dropLast (Nat.lt_of_succ_lt_succ hk) hne hmark hmin'
          simp only [rootSearch, hdir, h0, Bool.false_eq_true, if_false]
          rw [Function.iterate_succ_apply]
          exact hrec

lemma rootSearch_fallback (fsEx : List String → Bool) (fb : List String) :
    ∀ (fuel : Nat) (dir : List String),
      (∀ j, j < fuel → List.dropLast^[j] dir ≠ [] →
        hasMarker fsEx (List.dropLast^[j] dir) = false) →
      rootSearch fsEx fb fuel dir = fb := by
  intro fuel
  induction fuel with
  | zero => intro dir _; rfl
  | succ fuel ih =>
      intro dir h
      by_cases hdir : dir = []
      · simp [rootSearch, hdir]
      · have h0 : hasMarker fsEx dir = false := by
          have := h 0 (Nat.succ_pos fuel) (by simpa using hdir)
          simpa using this
        have hrec := ih dir.dropLast (by
          intro j hj hne
          have := h (j + 1) (Nat.succ_lt_succ hj) (by rwa [Function.iterate_succ_apply])
          rwa [Function.iterate_succ_apply] at this)
        simp [rootSearch, hdir, h0, hrec]

/-- C5 counterexample: the claim promises that a marker at depth
k ≤ maxSearchDepth = 10 is found. Two layouts refute it. In the first,
the only marker sits in the ancestor exactly 10 levels above the file's
directory, yet `detectProjectRoot` returns the file's own directory,
because the loop checks only the directories at depths 0 through 9. In
the second, the only marker sits in the filesystem root, two levels above
the file, yet `detectProjectRoot` again returns the file's own directory,
because the loop guard `dir !== path.parse(dir).root` never examines the
root. -/
theorem detectProjectRoot_misses_marker_at_depth_ten :
    (hasMarker exMarkerFs (List.dropLast^[10] exFileDir) = true
      ∧ List.dropLast^[10] exFileDir ≠ []
      ∧ detectProjectRoot exMarkerFs exFileDir = exFileDir
      ∧ exFileDir ≠ List.dropLast^[10] exFileDir)
    ∧ (hasMarker (fun l => l == ["package.json"])
          (List.dropLast^[2] ["u", "v"]) = true
      ∧ List.dropLast^[2] (["u", "v"] : List String) = []
      ∧ detectProjectRoot (fun l => l == ["package.json"]) ["u", "v"]
          = ["u", "v"]
      ∧ (["u", "v"] : List String) ≠ List.dropLast^[2] ["u", "v"]) := by
  refine ⟨⟨by decide, by decide, by decide, by decide⟩,
    by decide, by decide, by decide, by decide⟩

/-- C5 (amended): `detectProjectRoot` checks only the directories at
depths 0 through 9 above the file that lie strictly below the filesystem
root (the loop guard stops at the root without examining it): for every
layout whose nearest marker lies in such a directory at depth k < 10 it
returns that marker's directory, and when no directory strictly below the
root at depths 0..9 contains a marker — in particular when the only
marker lies at depth 10 or beyond, or in the filesystem root itself — it
returns the file's own directory. -/
theorem detectProjectRoot_depth_bounded (fsEx : List String → Bool)
    (fileDir : List String) :
    (∀ k, k < 10 → List.dropLast^[k] fileDir ≠ [] →
      hasMarker fsEx (List.dropLast^[k] fileDir) = true →
      (∀ j, j < k → hasMarker fsEx (List.dropLast^[j] fileDir) = false) →
      detectProjectRoot fsEx fileDir = List.dropLast^[k] fileDir)
    ∧ ((∀ j, j < 10 → List.dropLast^[j] fileDir ≠ [] →
        hasMarker fsEx (List.dropLast^[j] fileDir) = false) →
      detectProjectRoot fsEx fileDir = fileDir) := by
  constructor
  · intro k hk hne hmark hmin
    exact rootSearch_finds fsEx fileDir 10 k fileDir hk hne hmark hmin
  · intro h
    exact rootSearch_fallback fsEx fileDir 10 fileDir h

/-- Witness for C5 (amended): a marker two levels up is found at depth 2. -/
theorem detectProjectRoot_depth_bounded_witness :
    detectProjectRoot (fun l => l == ["p", "package.json"])
        ["p", "q", "r"] = ["p"] := by
  have h := (detectProjectRoot_depth_bounded
    (fun l => l == ["p", "package.json"]) ["p", "q", "r"]).1 2
    (by decide) (by decide) (by decide) (by decide)
  simpa using h

/-! ### Temp resource cleanup lemmas (C2) -/

lemma eraseAlive_alive_ne (fs : FsOracle) (p q : String) (h : q ≠ p) :
    (eraseAlive fs p).alive q = fs.alive q := by
  simp [eraseAlive, h]

lemma eraseAlive_alive_false (fs : FsOracle) (p q : String)
    (h : fs.alive q = false) : (eraseAlive fs p).alive q = false := by
  by_cases hq : q = p <;> simp [eraseAlive, hq, h]

lemma cleanupFilesPass_cons_del (r : TempResource) (rest : List TempResource)
    (fs : FsOracle) (ht : r.type = ResKind.file) (ha : fs.alive r.path = true) :
    cleanupFilesPass (r :: rest) fs =
      ((cleanupFilesPass rest (if fs.unlinkOk r.path then eraseAlive fs r.path else fs)).1,
        (cleanupFilesPass rest (if fs.unlinkOk r.path then eraseAlive fs r.path else fs)).2.1,
        (ResKind.file, r.path) ::
          (cleanupFilesPass rest (if fs.unlinkOk r.path then eraseAlive fs r.path else fs)).2.2) := by
  simp only [cleanupFilesPass]
  rw [if_pos ht, if_pos ha]

lemma cleanupFilesPass_cons_keep (r : TempResource) (rest : List TempResource)
    (fs : FsOracle) (h : ¬ r.type = ResKind.file ∨ fs.alive r.path = false) :
    cleanupFilesPass (r :: rest) fs =
      (r :: (cleanupFilesPass rest fs).1, (cleanupFilesPass rest fs).2.1,
        (cleanupFilesPass rest fs).2.2) := by
  simp only [cleanupFilesPass]
  rcases h with h | h
  · rw [if_neg h]
  · by_cases ht : r.type = ResKind.file
    · rw [if_pos ht, if_neg (by simp [h])]
    · rw [if_neg ht]

lemma cleanupDirsPass_cons_del (r : TempResource) (rest : List TempResource)
    (fs : FsOracle) (ht : r.type = ResKind.directory) (ha : fs.alive r.path = true) :
    cleanupDirsPass (r :: rest) fs =
      ((cleanupDirsPass rest (if fs.rmdirOk r.path then eraseAlive fs r.path else fs)).1,
        (cleanupDirsPass rest (if fs.rmdirOk r.path then eraseAlive fs r.path else fs)).2.1,
        (ResKind.directory, r.path) ::
          (cleanupDirsPass rest (if fs.rmdirOk r.path then eraseAlive fs r.path else fs)).2.2) := by
  simp only [cleanupDirsPass]
  rw [if_pos ht, if_pos ha]

lemma cleanupDirsPass_cons_keep (r : TempResource) (rest : List TempResource)
    (fs : FsOracle) (h : ¬ r.type = ResKind.directory ∨ fs.alive r.path = false) :
    cleanupDirsPass (r :: rest) fs =
      (r :: (cleanupDirsPass rest fs).1, (cleanupDirsPass rest fs).2.1,
        (cleanupDirsPass rest fs).2.2) := by
  simp only [cleanupDirsPass]
  rcases h with h | h
  · rw [if_neg h]
  · by_cases ht : r.type = ResKind.directory
    · rw [if_pos ht, if_neg (by simp [h])]
    · rw [if_neg ht]

lemma cleanupFilesPass_map (m : List TempResource) :
    ∀ fs : FsOracle, (m.map TempResource.path).Nodup →
      (cleanupFilesPass m fs).1
        = m.filter fun r => !(decide (r.type = ResKind.file) && fs.alive r.path) := by
  induction m with
  | nil => intro fs _; rfl
  | cons r rest ih =>
      intro fs hnd
      have hnd' : (rest.map TempResource.path).Nodup := (List.nodup_cons.mp hnd).2
      have hhead : r.path ∉ rest.map TempResource.path := (List.nodup_cons.mp hnd).1
      by_cases ht : r.type = ResKind.file
      · by_cases ha : fs.alive r.path = true
        · rw [cleanupFilesPass_cons_del r rest fs ht ha, List.filter_cons]
          have hpr : (!(decide (r.type = ResKind.file) && fs.alive r.path)) = false := by
            simp [ht, ha]
          rw [hpr]
          simp only [Bool.false_eq_true, if_false]
          rw [ih _ hnd']
          apply List.filter_congr
          intro x hx
          have hxp : x.path ≠ r.path := fun he =>
            hhead (he ▸ List.mem_map_of_mem TempResource.path hx)
          by_cases hok : fs.unlinkOk r.path <;>
            simp [hok, eraseAlive_alive_ne fs r.path x.path hxp]
        · have ha' : fs.alive r.path = false := by
            revert ha; cases fs.alive r.path <;> simp
          rw [cleanupFilesPass_cons_keep r rest fs (Or.inr ha'), List.filter_cons]
          have hpr : (!(decide (r.type = ResKind.file) && fs.alive r.path)) = true := by
            simp [ht, ha']
          rw [hpr]
          simp only [if_true]
          rw [ih _ hnd']
      · rw [cleanupFilesPass_cons_keep r rest fs (Or.inl ht), List.filter_cons]
        have hpr : (!(decide (r.type = ResKind.file) && fs.alive r.path)) = true := by
          simp [ht]
        rw [hpr]
        simp only [if_true]
        rw [ih _ hnd']

lemma cleanupDirsPass_map (m : List TempResource) :
    ∀ fs : FsOracle, (m.map TempResource.path).Nodup →
      (cleanupDirsPass m fs).1
        = m.filter fun r => !(decide (r.type = ResKind.directory) && fs.alive r.path) := by
  induction m with
  | nil => intro fs _; rfl
  | cons r rest ih =>
      intro fs hnd
      have hnd' : (rest.map TempResource.path).Nodup := (List.nodup_cons.mp hnd).2
      have hhead : r.path ∉ rest.map TempResource.path := (List.nodup_cons.mp hnd).1
      by_cases ht : r.type = ResKind.directory
      · by_cases ha : fs.alive r.path = true
        · rw [cleanupDirsPass_cons_del r rest fs ht ha, List.filter_cons]
          have hpr : (!(decide (r.type = ResKind.directory) && fs.alive r.path)) = false := by
            simp [ht, ha]
          rw [hpr]
          simp only [Bool.false_eq_true, if_false]
          rw [ih _ hnd']
          apply List.filter_congr
          intro x hx
          have hxp : x.path ≠ r.path := fun he =>
            hhead (he ▸ List.mem_map_of_mem TempResource.path hx)
          by_cases hok : fs.rmdirOk r.path <;>
            simp [hok, eraseAlive_alive_ne fs r.path x.path hxp]
        · have ha' : fs.alive r.path = false := by
            revert ha; cases fs.alive r.path <;> simp
          rw [cleanupDirsPass_cons_keep r rest fs (Or.inr ha'), List.filter_cons]
          have hpr : (!(decide (r.type = ResKind.directory) && fs.alive r.path)) = true := by
            simp [ht, ha']
          rw [hpr]
          simp only [if_true]
          rw [ih _ hnd']
      · rw [cleanupDirsPass_cons_keep r rest fs (Or.inl ht), List.filter_cons]
        have hpr : (!(decide (r.type = ResKind.directory) && fs.alive r.path)) = true := by
          simp [ht]
        rw [hpr]
        simp only [if_true]
        rw [ih _ hnd']

lemma cleanupFilesPass_alive_untouched (m : List TempResource) :
    ∀ (fs : FsOracle) (p : String), p ∉ m.map TempResource.path →
      ((cleanupFilesPass m fs).2.1).alive p = fs.alive p := by
  induction m with
  | nil => intro fs p _; rfl
  | cons r rest ih =>
      intro fs p hp
      have hp' : p ∉ rest.map TempResource.path := fun h =>
        hp (List.mem_cons_of_mem _ h)
      have hpr : p ≠ r.path := fun h =>
        hp (h ▸ List.mem_cons_self _ _)
      by_cases ht : r.type = ResKind.file
      · by_cases ha : fs.alive r.path = true
        · rw [cleanupFilesPass_cons_del r rest fs ht ha]
          rw [ih _ p hp']
          by_cases hok : fs.unlinkOk r.path <;>
            simp [hok, eraseAlive_alive_ne fs r.path p hpr]
        · have ha' : fs.alive r.path = false := by
            revert ha; cases fs.alive r.path <;> simp
          rw [cleanupFilesPass_cons_keep r rest fs (Or.inr ha')]
          exact ih _ p hp'
      · rw [cleanupFilesPass_cons_keep r rest fs (Or.inl ht)]
        exact ih _ p hp'

lemma cleanupDirsPass_alive_untouched (m : List TempResource) :
    ∀ (fs : FsOracle) (p : String), p ∉ m.map TempResource.path →
      ((cleanupDirsPass m fs).2.1).alive p = fs.alive p := by
  induction m with
  | nil => intro fs p _; rfl
  | cons r rest ih =>
      intro fs p hp
      have hp' : p ∉ rest.map TempResource.path := fun h =>
        hp (List.mem_cons_of_mem _ h)
      have hpr : p ≠ r.path := fun h =>
        hp (h ▸ List.mem_cons_self _ _)
      by_cases ht : r.type = ResKind.directory
      · by_cases ha : fs.alive r.path = true
        · rw [cleanupDirsPass_cons_del r rest fs ht ha]
          rw [ih _ p hp']
          by_cases hok : fs.rmdirOk r.path <;>
            simp [hok, eraseAlive_alive_ne fs r.path p hpr]
        · have ha' : fs.alive r.path = false := by
            revert ha; cases fs.alive r.path <;> simp
          rw [cleanupDirsPass_cons_keep r rest fs (Or.inr ha')]
          exact ih _ p hp'
      · rw [cleanupDirsPass_cons_keep r rest fs (Or.inl ht)]
        exact ih _ p hp'

lemma cleanupFilesPass_alive_false (m : List TempResource) :
    ∀ (fs : FsOracle) (p : String), fs.alive p = false →
      ((cleanupFilesPass m fs).2.1).alive p = false := by
  induction m with
  | nil => intro fs p h; exact h
  | cons r rest ih =>
      intro fs p h
      by_cases ht : r.type = ResKind.file
      · by_cases ha : fs.alive r.path = true
        · rw [cleanupFilesPass_cons_del r rest fs ht ha]
          apply ih
          by_cases hok : fs.unlinkOk r.path <;>
            simp [hok, eraseAlive_alive_false fs r.path p h, h]
        · have ha' : fs.alive r.path = false := by
            revert ha; cases fs.alive r.path <;> simp
          rw [cleanupFilesPass_cons_keep r rest fs (Or.inr ha')]
          exact ih _ p h
      · rw [cleanupFilesPass_cons_keep r rest fs (Or.inl ht)]
        exact ih _ p h

lemma cleanupDirsPass_alive_false (m : List TempResource) :
    ∀ (fs : FsOracle) (p : String), fs.alive p = false →
      ((cleanupDirsPass m fs).2.1).alive p = false := by
  induction m with
  | nil => intro fs p h; exact h
  | cons r rest ih =>
      intro fs p h
      by_cases ht : r.type = ResKind.directory
      · by_cases ha : fs.alive r.path = true
        · rw [cleanupDirsPass_cons_del r rest fs ht ha]
          apply ih
          by_cases hok : fs.rmdirOk r.path <;>
            simp [hok, eraseAlive_alive_false fs r.path p h, h]
        · have ha' : fs.alive r.path = false := by
            revert ha; cases fs.alive r.path <;> simp
          rw [cleanupDirsPass_cons_keep r rest fs (Or.inr ha')]
          exact ih _ p h
      · rw [cleanupDirsPass_cons_keep r rest fs (Or.inl ht)]
        exact ih _ p h

lemma cleanupFilesPass_kept_alive (m : List TempResource) :
    ∀ fs : FsOracle, (m.map TempResource.path).Nodup →
      ∀ r ∈ (cleanupFilesPass m fs).1,
        ((cleanupFilesPass m fs).2.1).alive r.path = fs.alive r.path := by
  induction m with
  | nil => intro fs _ r hr; cases hr
  | cons x rest ih =>
      intro fs hnd r hr
      have hnd' : (rest.map TempResource.path).Nodup := (List.nodup_cons.mp hnd).2
      have hhead : x.path ∉ rest.map TempResource.path := (List.nodup_cons.mp hnd).1
      by_cases ht : x.type = ResKind.file
      · by_cases ha : fs.alive x.path = true
        · rw [cleanupFilesPass_cons_del x rest fs ht ha] at hr ⊢
          have hfs1 := ih (if fs.unlinkOk x.path then eraseAlive fs x.path else fs)
            hnd' r hr
          have hrrest : r ∈ rest := by
            have := cleanupFilesPass_map rest
              (if fs.unlinkOk x.path then eraseAlive fs x.path else fs) hnd'
            rw [this] at hr
            exact (List.mem_filter.mp hr).1
          have hxp : r.path ≠ x.path := fun he =>
            hhead (he ▸ List.mem_map_of_mem TempResource.path hrrest)
          rw [hfs1]
          by_cases hok : fs.unlinkOk x.path <;>
            simp [hok, eraseAlive_alive_ne fs x.path r.path hxp]
        · have ha' : fs.alive x.path = false := by
            revert ha; cases fs.alive x.path <;> simp
          rw [cleanupFilesPass_cons_keep x rest fs (Or.inr ha')] at hr ⊢
          rcases List.mem_cons.mp hr with h1 | h1
          · subst h1
            exact cleanupFilesPass_alive_untouched rest fs r.path hhead
          · exact ih fs hnd' r h1
      · rw [cleanupFilesPass_cons_keep x rest fs (Or.inl ht)] at hr ⊢
        rcases List.mem_cons.mp hr with h1 | h1
        · subst h1
          exact cleanupFilesPass_alive_untouched rest fs r.path hhead
        · exact ih fs hnd' r h1

lemma cleanupFilesPass_log_kinds (m : List TempResource) :
    ∀ fs : FsOracle, ∀ e ∈ (cleanupFilesPass m fs).2.2, e.1 = ResKind.file := by
  induction m with
  | nil => intro fs e he; cases he
  | cons x rest ih =>
      intro fs e he
      by_cases ht : x.type = ResKind.file
      · by_cases ha : fs.alive x.path = true
        · rw [cleanupFilesPass_cons_del x rest fs ht ha] at he
          rcases List.mem_cons.mp he with h1 | h1
          · rw [h1]
          · exact ih _ e h1
        · have ha' : fs.alive x.path = false := by
            revert ha; cases fs.alive x.path <;> simp
          rw [cleanupFilesPass_cons_keep x rest fs (Or.inr ha')] at he
          exact ih fs e he
      · rw [cleanupFilesPass_cons_keep x rest fs (Or.inl ht)] at he
        exact ih fs e he

lemma cleanupDirsPass_log_kinds (m : List TempResource) :
    ∀ fs : FsOracle, ∀ e ∈ (cleanupDirsPass m fs).2.2, e.1 = ResKind.directory := by
  induction m with
  | nil => intro fs e he; cases he
  | cons x rest ih =>
      intro fs e he
      by_cases ht : x.type = ResKind.directory
      · by_cases ha : fs.alive x.path = true
        · rw [cleanupDirsPass_cons_del x rest fs ht ha] at he
          rcases List.mem_cons.mp he with h1 | h1
          · rw [h1]
          · exact ih _ e h1
        · have ha' : fs.alive x.path = false := by
            revert ha; cases fs.alive x.path <;> simp
          rw [cleanupDirsPass_cons_keep x rest fs (Or.inr ha')] at he
          exact ih fs e he
      · rw [cleanupDirsPass_cons_keep x rest fs (Or.inl ht)] at he
        exact ih fs e he

lemma cleanupFilesPass_noop (m : List TempResource) :
    ∀ fs : FsOracle, (∀ r ∈ m, fs.alive r.path = false) →
      cleanupFilesPass m fs = (m, fs, []) := by
  induction m with
  | nil => intro fs _; rfl
  | cons x rest ih =>
      intro fs h
      have hx : fs.alive x.path = false := h x (List.mem_cons_self _ _)
      have hrest : ∀ r ∈ rest, fs.alive r.path = false :=
        fun r hr => h r (List.mem_cons_of_mem _ hr)
      rw [cleanupFilesPass_cons_keep x rest fs (Or.inr hx), ih fs hrest]

lemma cleanupDirsPass_noop (m : List TempResource) :
    ∀ fs : FsOracle, (∀ r ∈ m, fs.alive r.path = false) →
      cleanupDirsPass m fs = (m, fs, []) := by
  induction m with
  | nil => intro fs _; rfl
  | cons x rest ih =>
      intro fs h
      have hx : fs.alive x.path = false := h x (List.mem_cons_self _ _)
      have hrest : ∀ r ∈ rest, fs.alive r.path = false :=
        fun r hr => h r (List.mem_cons_of_mem _ hr)
      rw [cleanupDirsPass_cons_keep x rest fs (Or.inr hx), ih fs hrest]

/-- C2 counterexample: the claim states that `cleanupTempResources` always
leaves the tracking set empty, even when some tracked paths no longer
exist. The `tempResources.delete(key)` calls sit inside the
`fs.existsSync(resource.path)` guards, so a tracked file whose path is
already gone stays in the map after cleanup returns. -/
theorem cleanupTempResources_keeps_stale_entry :
    (cleanupTempResources [⟨ResKind.file, "stale"⟩]
        ⟨fun _ => false, fun _ => true, fun _ => true⟩).1
      = [⟨ResKind.file, "stale"⟩]
    ∧ [(⟨ResKind.file, "stale"⟩ : TempResource)] ≠ [] := by
  exact ⟨rfl, by decide⟩

/-- C2 (amended): `cleanupTempResources` never throws (every delete is
wrapped in try/catch; the function is total here); it removes from the
tracking map exactly the entries whose path exists at call time — even
when their deletion fails — so entries whose tracked paths no longer
exist remain in the map and the map is left empty only when every tracked
path existed; every file deletion is attempted before any directory
deletion; and a second consecutive call is idempotent: it deletes nothing,
changes nothing and raises no error. -/
theorem cleanupTempResources_spec (m : List TempResource) (fs : FsOracle)
    (hnd : (m.map TempResource.path).Nodup) :
    (cleanupTempResources m fs).1 = m.filter (fun r => !(fs.alive r.path))
    ∧ cleanupTempResources (cleanupTempResources m fs).1
          (cleanupTempResources m fs).2.1
        = ((cleanupTempResources m fs).1, (cleanupTempResources m fs).2.1, [])
    ∧ ∃ lf ld, (cleanupTempResources m fs).2.2 = lf ++ ld
        ∧ (∀ e ∈ lf, e.1 = ResKind.file)
        ∧ (∀ e ∈ ld, e.1 = ResKind.directory) := by
  have hm1 := cleanupFilesPass_map m fs hnd
  have hnd1 : ((cleanupFilesPass m fs).1.map TempResource.path).Nodup := by
    rw [hm1]
    exact hnd.sublist ((List.filter_sublist m).map TempResource.path)
  have hm2 := cleanupDirsPass_map (cleanupFilesPass m fs).1
    (cleanupFilesPass m fs).2.1 hnd1
  have hres1 : (cleanupTempResources m fs).1
      = m.filter (fun r => !(fs.alive r.path)) := by
    show (cleanupDirsPass (cleanupFilesPass m fs).1 (cleanupFilesPass m fs).2.1).1
      = m.filter (fun r => !(fs.alive r.path))
    rw [hm2]
    have hcongr : (cleanupFilesPass m fs).1.filter
          (fun r => !(decide (r.type = ResKind.directory)
            && ((cleanupFilesPass m fs).2.1).alive r.path))
        = (cleanupFilesPass m fs).1.filter
          (fun r => !(decide (r.type = ResKind.directory) && fs.alive r.path)) := by
      apply List.filter_congr
      intro x hx
      rw [cleanupFilesPass_kept_alive m fs hnd x hx]
    rw [hcongr, hm1, List.filter_filter]
    apply List.filter_congr
    intro x _
    cases htype : x.type <;> cases hal : fs.alive x.path <;> simp [htype, hal]
  refine ⟨hres1, ?_, ?_⟩
  · have hall : ∀ r ∈ (cleanupTempResources m fs).1, fs.alive r.path = false := by
      intro r hr
      rw [hres1] at hr
      have := (List.mem_filter.mp hr).2
      simpa using this
    have hall2 : ∀ r ∈ (cleanupTempResources m fs).1,
        ((cleanupTempResources m fs).2.1).alive r.path = false := by
      intro r hr
      show ((cleanupDirsPass (cleanupFilesPass m fs).1
        (cleanupFilesPass m fs).2.1).2.1).alive r.path = false
      exact cleanupDirsPass_alive_false _ _ _
        (cleanupFilesPass_alive_false m fs r.path (hall r hr))
    have hq1 := cleanupFilesPass_noop (cleanupTempResources m fs).1
      (cleanupTempResources m fs).2.1 hall2
    have hq2 := cleanupDirsPass_noop (cleanupTempResources m fs).1
      (cleanupTempResources m fs).2.1 hall2
    show (cleanupTempResources (cleanupTempResources m fs).1
      (cleanupTempResources m fs).2.1) = _
    simp only [cleanupTempResources] at hq1 hq2 ⊢
    rw [hq1, hq2]
    simp
  · exact ⟨(cleanupFilesPass m fs).2.2,
      (cleanupDirsPass (cleanupFilesPass m fs).1 (cleanupFilesPass m fs).2.1).2.2,
      rfl,
      cleanupFilesPass_log_kinds m fs,
      cleanupDirsPass_log_kinds _ _⟩

/-- Witness for C2 (amended) at a concrete map whose two tracked paths
both exist: the tracking map is emptied. -/
theorem cleanupTempResources_spec_witness :
    (cleanupTempResources
        [⟨ResKind.file, "a"⟩, ⟨ResKind.directory, "d"⟩]
        ⟨fun _ => true, fun _ => true, fun _ => true⟩).1
      = [] := by
  have h := (cleanupTempResources_spec
    [⟨ResKind.file, "a"⟩, ⟨ResKind.directory, "d"⟩]
    ⟨fun _ => true, fun _ => true, fun _ => true⟩ (by decide)).1
  simpa using h

/-! ### Reload-script injection lemmas (C6) -/

lemma nil_isPrefixOf_any (l : List Char) : [].isPrefixOf l = true := by
  cases l <;> rfl

lemma isPrefixOf_append_self (pat t : List Char) :
    pat.isPrefixOf (pat ++ t) = true := by
  induction pat with
  | nil => exact nil_isPrefixOf_any t
  | cons c rest ih => simp [List.isPrefixOf, ih]

lemma isPrefixOf_extend (pat : List Char) :
    ∀ l t : List Char, pat.isPrefixOf l = true → pat.isPrefixOf (l ++ t) = true := by
  induction pat with
  | nil => intro l t _; exact nil_isPrefixOf_any (l ++ t)
  | cons c pat' ih =>
      intro l t h
      cases l with
      | nil => cases h
      | cons b l' =>
          simp only [List.isPrefixOf, Bool.and_eq_true] at h
          simp only [List.cons_append, List.isPrefixOf, Bool.and_eq_true]
          exact ⟨h.1, ih l' t h.2⟩

lemma includesAux_nil_pat (t : List Char) : includesAux [] t = true := by
  cases t <;> rfl

lemma includesAux_cons (pat : List Char) (c : Char) (rest : List Char)
    (h : includesAux pat rest = true) : includesAux pat (c :: rest) = true := by
  simp [includesAux, h]

lemma includesAux_append_left (pat : List Char) :
    ∀ l₁ l₂ : List Char, includesAux pat l₂ = true →
      includesAux pat (l₁ ++ l₂) = true := by
  intro l₁
  induction l₁ with
  | nil => intro l₂ h; exact h
  | cons c rest ih =>
      intro l₂ h
      exact includesAux_cons pat c (rest ++ l₂) (ih l₂ h)

lemma includesAux_append_right (pat : List Char) :
    ∀ l t : List Char, includesAux pat l = true →
      includesAux pat (l ++ t) = true := by
  intro l
  induction l with
  | nil =>
      intro t h
      have : pat = [] := by
        cases pat with
        | nil => rfl
        | cons c r => cases h
      rw [this]
      exact includesAux_nil_pat t
  | cons c rest ih =>
      intro t h
      simp only [includesAux, Bool.or_eq_true] at h
      rcases h with h | h
      · simp only [List.cons_append, includesAux, Bool.or_eq_true]
        exact Or.inl (by
          have := isPrefixOf_extend pat (c :: rest) t h
          simpa using this)
      · simp only [List.cons_append, includesAux, Bool.or_eq_true]
        exact Or.inr (ih t h)

lemma includesAux_middle (pat l₁ l₂ repl : List Char)
    (h : includesAux pat repl = true) :
    includesAux pat (l₁ ++ repl ++ l₂) = true := by
  rw [List.append_assoc]
  exact includesAux_append_left pat l₁ (repl ++ l₂)
    (includesAux_append_right pat repl l₂ h)

lemma replaceFirst_of_not_includes (pat repl : List Char) :
    ∀ l : List Char, includesAux pat l = false →
      replaceFirst pat repl l = l := by
  intro l
  induction l with
  | nil => intro _; rfl
  | cons c rest ih =>
      intro h
      simp only [includesAux, Bool.or_eq_false_iff] at h
      simp only [replaceFirst, h.1, Bool.false_eq_true, if_false]
      rw [ih h.2]

lemma replaceFirst_splits (pat repl : List Char) (hpat : pat ≠ []) :
    ∀ l : List Char, includesAux pat l = true →
      ∃ l₁ l₂, replaceFirst pat repl l = l₁ ++ repl ++ l₂ := by
  intro l
  induction l with
  | nil =>
      intro h
      exfalso
      cases pat with
      | nil => exact hpat rfl
      | cons c r => cases h
  | cons c rest ih =>
      intro h
      by_cases hp : pat.isPrefixOf (c :: rest) = true
      · refine ⟨[], (c :: rest).drop pat.length, ?_⟩
        simp [replaceFirst, hp]
      · have hrest : includesAux pat rest = true := by
          simp only [includesAux, Bool.or_eq_true] at h
          rcases h with h | h
          · exact absurd h hp
          · exact h
        obtain ⟨l₁, l₂, heq⟩ := ih hrest
        refine ⟨c :: l₁, l₂, ?_⟩
        simp only [replaceFirst, hp, Bool.false_eq_true, if_false]
        rw [heq]
        rfl

/-- C6: the reload-script injection is idempotent — a body that already
references `/_lr_script.js` is served unchanged, and applying the
injection twice equals applying it once — and on a sample page without the
script the injected body contains the script reference exactly once, also
after a second request re-serves and re-injects the page. -/
theorem injectLiveReloadScript_idempotent :
    (∀ body, includesAux lrScriptRef body = true →
        injectLiveReloadScript body = body)
    ∧ (∀ body, injectLiveReloadScript (injectLiveReloadScript body)
        = injectLiveReloadScript body)
    ∧ countOccs lrScriptRef samplePage = 0
    ∧ countOccs lrScriptRef (injectLiveReloadScript samplePage) = 1
    ∧ countOccs lrScriptRef
        (injectLiveReloadScript (injectLiveReloadScript samplePage)) = 1 := by
  have hskip : ∀ body, includesAux lrScriptRef body = true →
      injectLiveReloadScript body = body := by
    intro body h
    simp [injectLiveReloadScript, h]
  refine ⟨hskip, ?_, by decide, by decide, by decide⟩
  intro body
  by_cases h : includesAux lrScriptRef body = true
  · rw [hskip body h, hskip body h]
  · have hb : includesAux lrScriptRef body = false := by
      revert h; cases includesAux lrScriptRef body <;> simp
    have hinj : injectLiveReloadScript body
        = replaceFirst headCloseTag lrReplacement body := by
      simp [injectLiveReloadScript, hb]
    by_cases hh : includesAux headCloseTag body = true
    · obtain ⟨l₁, l₂, heq⟩ :=
        replaceFirst_splits headCloseTag lrReplacement (by decide) body hh
      have hin : includesAux lrScriptRef (injectLiveReloadScript body) = true := by
        rw [hinj, heq]
        exact includesAux_middle lrScriptRef l₁ l₂ lrReplacement (by decide)
      exact hskip _ hin
    · have hh' : includesAux headCloseTag body = false := by
        revert hh; cases includesAux headCloseTag body <;> simp
      have hid : injectLiveReloadScript body = body := by
        rw [hinj, replaceFirst_of_not_includes headCloseTag lrReplacement body hh']
      rw [hid]
      exact hid

/-- Witness for C6: a body already containing the script reference is
served unchanged. -/
theorem injectLiveReloadScript_idempotent_witness :
    injectLiveReloadScript (injectLiveReloadScript samplePage)
      = injectLiveReloadScript samplePage :=
  injectLiveReloadScript_idempotent.1 (injectLiveReloadScript samplePage) (by decide)

end VSDeno
